import Mathlib

/-
  Verification of the access-control and identifier-resolution layer of the
  doc-flow repository (backend/src/services/documentService.ts,
  backend/src/routes/batchRoutes.ts, backend/src/routes/documentRoutes.ts,
  backend/src/config/paths.ts).

  The embedding is shallow: strings are Lean `String`s, the filesystem and the
  document database are explicit read-only states, every route handler and
  service method is a pure Lean function mirroring the TypeScript control flow.
  Node's `path.join` is modelled as segment concatenation with `/`, including
  its collapsing of a leading `/` on a later segment; its `..`-collapsing
  normalization is deliberately not modelled (no claim depends on it - the
  claims are about whether paths get built from unvalidated input at all).
-/

namespace DocFlow

/-! ## List-of-characters helpers (substring / suffix tests used by the code) -/

/-- Predicate `leadsWith needle hay`: holds when `needle` is an initial run of `hay`. -/
def leadsWith : List Char → List Char → Bool
  | [], _ => true
  | _ :: _, [] => false
  | a :: as, b :: bs => a == b && leadsWith as bs

/-- Predicate `occursIn needle hay`: `needle` occurs contiguously somewhere in `hay`
(JavaScript `String.prototype.includes`). -/
def occursIn (needle : List Char) : List Char → Bool
  | [] => leadsWith needle []
  | c :: rest => leadsWith needle (c :: rest) || occursIn needle rest

/-- Predicate `trailsWith needle hay`: `needle` is a final run of `hay`
(JavaScript `String.prototype.endsWith`, and the `$`-anchored regexes). -/
def trailsWith : List Char → List Char → Bool
  | needle, hay => leadsWith needle.reverse hay.reverse

/-- Characters of `s` before the first `:` (all of `s` if there is none). -/
def beforeColon : List Char → List Char
  | [] => []
  | c :: rest => if c = ':' then [] else c :: beforeColon rest

/-- Characters of `s` after the first `:`; `none` when `s` has no colon. -/
def afterColon : List Char → Option (List Char)
  | [] => none
  | c :: rest => if c = ':' then some rest else afterColon rest

/-- Replace the first `:` with `_` (JavaScript `s.replace(/:/, '_')` and
`s.replace(':', '_')`, both of which substitute only the first occurrence). -/
def replaceFirstColon : List Char → List Char
  | [] => []
  | c :: rest => if c = ':' then '_' :: rest else c :: replaceFirstColon rest

/-- Drop leading `/` characters (used to model `path.join` gluing a
segment that itself starts with a separator, e.g. `OUTPUT_TREE_FILENAME`). -/
def dropLeadSlash : List Char → List Char
  | [] => []
  | c :: rest => if c = '/' then dropLeadSlash rest else c :: rest

/-! ## String-level wrappers -/

/-- JavaScript `s.includes('..')`. -/
def hasDotDot (s : String) : Bool := occursIn ['.', '.'] s.data

/-- JavaScript `s.includes(c)` for a single character. -/
def hasChar (s : String) (c : Char) : Bool := s.data.contains c

/-- The traversal guard used verbatim by every batch file route:
`fileId.includes('..') || fileId.includes('/') || fileId.includes('\\')`. -/
def hasTraversal (s : String) : Bool :=
  hasDotDot s || hasChar s '/' || hasChar s '\\'

/-- Strip leading separators from a path segment. -/
def stripLeadSlash (s : String) : String := ⟨dropLeadSlash s.data⟩

/-- Join the tail segments of a path with `/`, gluing away a leading `/`
of each segment (Node `path.join` separator normalization). -/
def pathJoinRest : List String → String
  | [] => ""
  | [p] => stripLeadSlash p
  | p :: q :: rest => stripLeadSlash p ++ "/" ++ pathJoinRest (q :: rest)

/-- Model of Node `path.join` over an explicit segment list. -/
def pathJoin : List String → String
  | [] => ""
  | [p] => p
  | p :: q :: rest => p ++ "/" ++ pathJoinRest (q :: rest)

/-! ## Path constants (backend/src/config/paths.ts, default values) -/

def OUTPUTS_DIR : String := "/home/alimohammad/pdf-results"

def BATCH_OUTPUTS_DIR : String :=
  "/home/alimohammad/AIComps/comps/pdf-parser/batch_processing"

def OUTPUT_TREE_FILENAME : String := "/outputs/processing/output_tree.json"

/-! ## Identifier parsing (batchRoutes.ts and documentService.ts) -/

/-- Model of `extractBatchJobIdFromFileId` (batchRoutes.ts): everything before the
first colon; `null` when the id has no colon. -/
def extractBatchJobIdFromFileId (fileId : String) : Option String :=
  match afterColon fileId.data with
  | none => none
  | some _ => some ⟨beforeColon fileId.data⟩

/-- Model of `fileIdToFolderName` (batchRoutes.ts): replace the first colon with an
underscore. -/
def fileIdToFolderName (fileId : String) : String :=
  ⟨replaceFirstColon fileId.data⟩

/-- The file-name component of a composite batch identifier: the remainder
after the first colon (implicit in the code's split / replace-first-colon). -/
def batchFileName (fileId : String) : Option String :=
  (afterColon fileId.data).map fun l => ⟨l⟩

/-- Model of `DocumentService.isBatchDocument`: the id contains a colon. -/
def isBatchDocument (documentId : String) : Bool := hasChar documentId ':'

/-- Model of `DocumentService.getBatchDocumentFolder`: `documentId.replace(':', '_')`,
which in JavaScript replaces only the first occurrence. -/
def getBatchDocumentFolder (documentId : String) : String :=
  fileIdToFolderName documentId

/-- The validation actually applied by the batch file routes before any path
is built: the id is nonempty, free of `..` / `/` / `\`, contains a colon, and
the part before the first colon is nonempty (the route's falsy check on the
extracted batch job id). -/
def validBatchFileId (s : String) : Bool :=
  !(s.data.isEmpty) && !(hasTraversal s) &&
    match extractBatchJobIdFromFileId s with
    | none => false
    | some b => !(b.data.isEmpty)

/-! ## Filesystem model

The services and routes only observe the filesystem through `fs.access`
(existence), `fs.stat`, and `fs.readdir`; we model it as an explicit
read-only state: a list of existing file paths, and an association list from
existing directory paths to their entries. -/

/-- One `fs.readdir(..., { withFileTypes: true })` entry. -/
structure DirEntry where
  name : String
  isFile : Bool
  deriving DecidableEq, Repr

structure FSState where
  files : List String
  dirs : List (String × List DirEntry)
  deriving DecidableEq, Repr

def fileExists (fs : FSState) (p : String) : Bool := fs.files.contains p

/-- Result of `fs.readdir` for a directory path, `none` when the directory does
not exist (Node ENOENT). -/
def dirEntriesOf (fs : FSState) (p : String) : Option (List DirEntry) :=
  match fs.dirs.find? (fun d => d.1 == p) with
  | none => none
  | some d => some d.2

/-! ## Document database model

`DocumentModel` (backend/src/models/Document.ts) is imported by the service
but its source is not under src/; it is modelled from the spec's
document-store interface. -/

structure DocRecord where
  documentId : String
  permissions : List String
  isActive : Bool
  deriving DecidableEq, Repr

/-- Modelled from the spec: `findDocument(documentId)` of the document-store
collaborator interface (src/backend/src/models/Document.ts is not under
src/) - look up the record for a document id. -/
def findDocument (db : List DocRecord) (documentId : String) : Option DocRecord :=
  db.find? (fun r => r.documentId == documentId)

/-- Modelled from the spec: `DocumentModel.hasAccess` - grant iff the record
exists, `isActive`, and the user's groups intersect the record's permission
set. -/
def hasAccess (db : List DocRecord) (documentId : String)
    (userGroupIds : List String) : Bool :=
  match findDocument db documentId with
  | none => false
  | some r => r.isActive && r.permissions.any (fun g => userGroupIds.contains g)

/-- Modelled from the spec: `DocumentModel.findAll` (admin listing path) -
all active records. -/
def findAll (db : List DocRecord) : List String :=
  (db.filter (fun r => r.isActive)).map (fun r => r.documentId)

/-- Modelled from the spec: `DocumentModel.findByGroupIds` - the active
records whose permission set intersects the given groups. -/
def findByGroupIds (db : List DocRecord) (userGroupIds : List String) : List String :=
  (db.filter (fun r =>
    r.isActive && r.permissions.any (fun g => userGroupIds.contains g))).map
    (fun r => r.documentId)

/-! ## Image-name filters -/

/-- Lower-case a string (models `toLowerCase` / the `i` regex flag on the
ASCII names involved). -/
def lowerStr (s : String) : String := ⟨s.data.map Char.toLower⟩

/-- Node `path.extname` on a bare file name (no separators): the suffix from
the last `.`, except that a dot in the leading position yields no extension. -/
def lastDotSuffix : List Char → Option (List Char)
  | [] => none
  | c :: rest =>
    match lastDotSuffix rest with
    | some s => some s
    | none => if c = '.' then some ('.' :: rest) else none

def extname (s : String) : String :=
  match s.data with
  | [] => ""
  | _ :: rest =>
    match lastDotSuffix rest with
    | some e => ⟨e⟩
    | none => ""

/-- The extension allow-list of `DocumentService` image listing:
`['.jpeg', '.jpg', '.png']` compared against `path.extname(...).toLowerCase()`. -/
def isSimpleImageName (name : String) : Bool :=
  let e := lowerStr (extname name)
  e == ".jpeg" || e == ".jpg" || e == ".png"

/-- The batch route image filter: `/\.(jpeg|jpg|png|gif|webp)$/i.test(file)`. -/
def isBatchImageName (name : String) : Bool :=
  let l := lowerStr name
  trailsWith ".jpeg".data l.data || trailsWith ".jpg".data l.data ||
    trailsWith ".png".data l.data || trailsWith ".gif".data l.data ||
    trailsWith ".webp".data l.data

/-- Lexicographic comparison of character lists (the order induced by the
default JavaScript sort comparator on the names involved). -/
def lexLeChars : List Char → List Char → Bool
  | [], _ => true
  | _ :: _, [] => false
  | a :: as, b :: bs => if a = b then lexLeChars as bs else decide (a < b)

def strLe (a b : String) : Bool := lexLeChars a.data b.data

/-- Insertion of a string into a lexicographically sorted list. -/
def insertSorted (s : String) : List String → List String
  | [] => [s]
  | t :: rest => if strLe s t then s :: t :: rest else t :: insertSorted s rest

/-- JavaScript `Array.prototype.sort()` on the listed names (default
comparator: lexicographic). -/
def sortStrings : List String → List String
  | [] => []
  | s :: rest => insertSorted s (sortStrings rest)

/-! ## DocumentService (backend/src/services/documentService.ts)

The service methods throw `Error(message)`; we model the outcome as an
explicit result. A successful read is represented by the path that was read
(the claims are about authorization, errors, and path construction, not
about JSON contents). -/

inductive SvcRes (α : Type) where
  | ok (val : α)
  | err (msg : String)
  deriving DecidableEq, Repr

def accessDeniedMsg : String :=
  "Access denied: You do not have permission to view this document"

/-- Model of `DocumentService.checkAccess`. -/
def checkAccess (db : List DocRecord) (documentId : String)
    (userGroupIds : List String) : Bool :=
  hasAccess db documentId userGroupIds

/-- Model of `DocumentService.getBatchDocumentStructure`. -/
def getBatchDocumentStructure (fs : FSState) (documentId : String) :
    SvcRes String :=
  let batchJobId : String := ⟨beforeColon documentId.data⟩
  let batchFolder := getBatchDocumentFolder documentId
  let outputTreePath := pathJoin
    [BATCH_OUTPUTS_DIR, batchJobId, batchFolder, "output", "processing",
      "output_tree.json"]
  if fileExists fs outputTreePath then .ok outputTreePath
  else .err ("Batch document \"" ++ documentId ++ "\" not found at " ++
    outputTreePath)

/-- Model of `DocumentService.getDocumentById`: the batch branch is taken first; for
simple ids the permission check precedes any filesystem access. -/
def getDocumentById (db : List DocRecord) (fs : FSState) (documentId : String)
    (userGroupIds : List String) (isAdmin : Bool) : SvcRes String :=
  if isBatchDocument documentId then getBatchDocumentStructure fs documentId
  else if !isAdmin && !(checkAccess db documentId userGroupIds) then
    .err accessDeniedMsg
  else
    let outputTreePath := pathJoin [OUTPUTS_DIR, documentId, OUTPUT_TREE_FILENAME]
    if fileExists fs outputTreePath then .ok outputTreePath
    else .err ("Document with id \"" ++ documentId ++ "\" not found in path " ++
      outputTreePath ++ " or missing output_tree.json")

/-- Model of `DocumentService.getBatchDocumentImages`: throws when the processing
folder is absent, otherwise lists file entries with a simple-image extension,
sorted. -/
def getBatchDocumentImages (fs : FSState) (documentId : String) :
    SvcRes (List String) :=
  let batchJobId : String := ⟨beforeColon documentId.data⟩
  let batchFolder := getBatchDocumentFolder documentId
  let outputPath := pathJoin
    [BATCH_OUTPUTS_DIR, batchJobId, batchFolder, "output", "processing"]
  match dirEntriesOf fs outputPath with
  | none => .err ("Batch document \"" ++ documentId ++ "\" not found at " ++
      outputPath)
  | some entries =>
    .ok (sortStrings ((entries.filter
      (fun e => e.isFile && isSimpleImageName e.name)).map (fun e => e.name)))

/-- Model of `DocumentService.getDocumentImages`: note that the permission check comes
before the batch-document branch. -/
def getDocumentImages (db : List DocRecord) (fs : FSState) (documentId : String)
    (userGroupIds : List String) (isAdmin : Bool) : SvcRes (List String) :=
  if !isAdmin && !(checkAccess db documentId userGroupIds) then
    .err accessDeniedMsg
  else if isBatchDocument documentId then getBatchDocumentImages fs documentId
  else
    let docPath := pathJoin [OUTPUTS_DIR, documentId]
    match dirEntriesOf fs docPath with
    | none => .err ("Document with id \"" ++ documentId ++ "\" not found")
    | some entries =>
      .ok (sortStrings ((entries.filter
        (fun e => e.isFile && isSimpleImageName e.name)).map (fun e => e.name)))

structure DocumentMetadata where
  id : String
  name : String
  path : String
  hasOutputTree : Bool
  deriving DecidableEq, Repr

/-- Model of `DocumentService.getAllDocuments`: database-accessible ids intersected
with the directories actually present under `OUTPUTS_DIR`; a missing outputs
directory yields an empty listing. -/
def getAllDocuments (db : List DocRecord) (fs : FSState)
    (userGroupIds : List String) (isAdmin : Bool) : List DocumentMetadata :=
  let accessibleDocIds :=
    if isAdmin then findAll db else findByGroupIds db userGroupIds
  match dirEntriesOf fs OUTPUTS_DIR with
  | none => []
  | some entries =>
    (entries.filter (fun e => !e.isFile && accessibleDocIds.contains e.name)).map
      (fun e =>
        let docPath := pathJoin [OUTPUTS_DIR, e.name]
        { id := e.name, name := e.name, path := docPath,
          hasOutputTree := fileExists fs (pathJoin [docPath, OUTPUT_TREE_FILENAME]) })

/-! ## Batch file routes (backend/src/routes/batchRoutes.ts) -/

inductive BatchRes where
  | okPath (p : String)
  | okList (names : List String)
  | okStream (p : String) (contentType : String)
  | clientError (msg : String)
  | notFoundErr (msg : String)
  deriving DecidableEq, Repr

/-- Route `GET /files/:fileId/structure`: guard order - required, traversal check,
batch job id extraction - then path construction and read. -/
def batchFileStructureRoute (fs : FSState) (fileId : String) : BatchRes :=
  if fileId.data.isEmpty then .clientError "File ID is required"
  else if hasTraversal fileId then .clientError "Invalid file ID"
  else
    match extractBatchJobIdFromFileId fileId with
    | none => .clientError "Could not determine batch job ID from file ID"
    | some batchJobId =>
      if batchJobId.data.isEmpty then
        .clientError "Could not determine batch job ID from file ID"
      else
        let folderName := fileIdToFolderName fileId
        let structurePath := pathJoin
          [BATCH_OUTPUTS_DIR, batchJobId, folderName, "output", "processing",
            "output_tree.json"]
        if fileExists fs structurePath then .okPath structurePath
        else .notFoundErr "Document structure not found"

/-- Route `GET /files/:fileId/images`: same guards; a missing processing directory
yields a successful empty list; the names are filtered but not sorted. -/
def batchFileImagesRoute (fs : FSState) (fileId : String) : BatchRes :=
  if fileId.data.isEmpty then .clientError "File ID is required"
  else if hasTraversal fileId then .clientError "Invalid file ID"
  else
    match extractBatchJobIdFromFileId fileId with
    | none => .clientError "Could not determine batch job ID from file ID"
    | some batchJobId =>
      if batchJobId.data.isEmpty then
        .clientError "Could not determine batch job ID from file ID"
      else
        let folderName := fileIdToFolderName fileId
        let processingDir := pathJoin
          [BATCH_OUTPUTS_DIR, batchJobId, folderName, "output", "processing"]
        match dirEntriesOf fs processingDir with
        | none => .okList []
        | some entries =>
          .okList ((entries.map (fun e => e.name)).filter isBatchImageName)

/-- The content-type table of `GET /files/:fileId/images/:imageName`, with
its `application/octet-stream` fallback. -/
def contentTypeFor (imageName : String) : String :=
  let ext := lowerStr (extname imageName)
  if ext = ".jpeg" then "image/jpeg"
  else if ext = ".jpg" then "image/jpeg"
  else if ext = ".png" then "image/png"
  else if ext = ".gif" then "image/gif"
  else if ext = ".webp" then "image/webp"
  else "application/octet-stream"

/-- Route `GET /files/:fileId/images/:imageName`: traversal guards on both
components, then the image is streamed whenever the file exists - the
extension allow-list is not consulted for serving. -/
def batchFileImageServeRoute (fs : FSState) (fileId imageName : String) :
    BatchRes :=
  if fileId.data.isEmpty || imageName.data.isEmpty then
    .clientError "File ID and image name are required"
  else if hasTraversal fileId || hasTraversal imageName then
    .clientError "Invalid file ID or image name"
  else
    match extractBatchJobIdFromFileId fileId with
    | none => .clientError "Could not determine batch job ID from file ID"
    | some batchJobId =>
      if batchJobId.data.isEmpty then
        .clientError "Could not determine batch job ID from file ID"
      else
        let folderName := fileIdToFolderName fileId
        let imagePath := pathJoin
          [BATCH_OUTPUTS_DIR, batchJobId, folderName, "output", "processing",
            imageName]
        if fileExists fs imagePath then
          .okStream imagePath (contentTypeFor imageName)
        else .notFoundErr "Image not found"

/-- Route `GET /files/:fileId/pdf`: guards, then
`{batchRoot}/{batchJobId}/{folderName}/input/original.pdf`. -/
def batchFilePdfRoute (fs : FSState) (fileId : String) : BatchRes :=
  if fileId.data.isEmpty then .clientError "File ID is required"
  else if hasTraversal fileId then .clientError "Invalid file ID"
  else
    match extractBatchJobIdFromFileId fileId with
    | none => .clientError "Could not determine batch job ID from file ID"
    | some batchJobId =>
      if batchJobId.data.isEmpty then
        .clientError "Could not determine batch job ID from file ID"
      else
        let folderName := fileIdToFolderName fileId
        let pdfPath := pathJoin
          [BATCH_OUTPUTS_DIR, batchJobId, folderName, "input", "original.pdf"]
        if fileExists fs pdfPath then .okStream pdfPath "application/pdf"
        else .notFoundErr "PDF not found"

/-! ## Document route (backend/src/routes/documentRoutes.ts)

`GET /api/documents/:id` maps a service failure whose message contains
`not found` to a 404 `Document not found` response and every other failure
to a 500 `Failed to fetch document` response, forwarding the message. The
principal wiring (groups, admin flag, supplied by the authenticate
middleware) is modelled from the spec; the error mapping is the code's. -/

structure HttpResponse where
  status : Nat
  errorLabel : String
  message : String
  deriving DecidableEq, Repr

def docRouteGetById (db : List DocRecord) (fs : FSState) (id : String)
    (userGroupIds : List String) (isAdmin : Bool) : HttpResponse :=
  match getDocumentById db fs id userGroupIds isAdmin with
  | .ok p => ⟨200, "", p⟩
  | .err msg =>
    if occursIn "not found".data msg.data then ⟨404, "Document not found", msg⟩
    else ⟨500, "Failed to fetch document", msg⟩

/-! ## Session authority (spec-modelled)

The authenticate middleware (backend/src/middleware/auth.ts) and
`AuthService` are imported by the routes but are not under src/. -/

structure Principal where
  userId : String
  groupIds : List String
  isAdmin : Bool
  deriving DecidableEq, Repr

structure SessionRec where
  token : String
  principal : Principal
  expiresAt : Nat
  deriving DecidableEq, Repr

/-- Modelled from the spec: `SessionAuthority.validate` - fails if the token
is absent, unknown, or `now > expiresAt` (fixed window, no sliding expiry)
(src/backend/src/middleware/auth.ts and authService.ts are not under src/). -/
def validateToken (tbl : List SessionRec) (now : Nat) (tok : Option String) :
    Option Principal :=
  match tok with
  | none => none
  | some t =>
    match tbl.find? (fun s => s.token == t) with
    | none => none
    | some s => if now ≤ s.expiresAt then some s.principal else none

inductive AuthOutcome (α : Type) where
  | sessionInvalid
  | handled (a : α)
  deriving DecidableEq, Repr

/-- Modelled from the spec: the `router.use(authenticate)` /
`app.use(..., authenticate, ...)` composition - a handler runs only on a
resolved principal; otherwise the request ends in a 401-class
`SessionInvalid` failure with no resource lookup. -/
def withAuth {α : Type} (tbl : List SessionRec) (now : Nat)
    (tok : Option String) (handler : Principal → α) : AuthOutcome α :=
  match validateToken tbl now tok with
  | none => .sessionInvalid
  | some p => .handled (handler p)

/-- The authenticated batch structure endpoint (batchRoutes.ts mounts
`authenticate` ahead of every batch route). -/
def batchStructureEndpoint (tbl : List SessionRec) (now : Nat)
    (tok : Option String) (fs : FSState) (fileId : String) :
    AuthOutcome BatchRes :=
  withAuth tbl now tok (fun _p => batchFileStructureRoute fs fileId)

def batchImagesEndpoint (tbl : List SessionRec) (now : Nat)
    (tok : Option String) (fs : FSState) (fileId : String) :
    AuthOutcome BatchRes :=
  withAuth tbl now tok (fun _p => batchFileImagesRoute fs fileId)

def batchImageServeEndpoint (tbl : List SessionRec) (now : Nat)
    (tok : Option String) (fs : FSState) (fileId imageName : String) :
    AuthOutcome BatchRes :=
  withAuth tbl now tok (fun _p => batchFileImageServeRoute fs fileId imageName)

def batchPdfEndpoint (tbl : List SessionRec) (now : Nat)
    (tok : Option String) (fs : FSState) (fileId : String) :
    AuthOutcome BatchRes :=
  withAuth tbl now tok (fun _p => batchFilePdfRoute fs fileId)

/-- The authenticated document detail endpoint. -/
def documentGetEndpoint (tbl : List SessionRec) (now : Nat)
    (tok : Option String) (db : List DocRecord) (fs : FSState) (id : String) :
    AuthOutcome HttpResponse :=
  withAuth tbl now tok (fun p => docRouteGetById db fs id p.groupIds p.isAdmin)

/-- The authenticated document listing endpoint. -/
def documentListEndpoint (tbl : List SessionRec) (now : Nat)
    (tok : Option String) (db : List DocRecord) (fs : FSState) :
    AuthOutcome (List DocumentMetadata) :=
  withAuth tbl now tok (fun p => getAllDocuments db fs p.groupIds p.isAdmin)

/-! ## Supporting lemmas -/

theorem strExt {a b : String} (h : a.data = b.data) : a = b := by
  cases a; cases b; cases h; rfl

theorem beforeColon_append {b : List Char} (hb : ':' ∉ b) (f : List Char) :
    beforeColon (b ++ ':' :: f) = b := by
  induction b with
  | nil => simp [beforeColon]
  | cons c rest ih =>
    have hc : c ≠ ':' := fun h => hb (h ▸ List.mem_cons_self c rest)
    have hr : ':' ∉ rest := fun h => hb (List.mem_cons_of_mem _ h)
    simp [beforeColon, hc, ih hr]

theorem afterColon_append {b : List Char} (hb : ':' ∉ b) (f : List Char) :
    afterColon (b ++ ':' :: f) = some f := by
  induction b with
  | nil => simp [afterColon]
  | cons c rest ih =>
    have hc : c ≠ ':' := fun h => hb (h ▸ List.mem_cons_self c rest)
    have hr : ':' ∉ rest := fun h => hb (List.mem_cons_of_mem _ h)
    simp [afterColon, hc, ih hr]

theorem replaceFirstColon_append {b : List Char} (hb : ':' ∉ b) (f : List Char) :
    replaceFirstColon (b ++ ':' :: f) = b ++ '_' :: f := by
  induction b with
  | nil => simp [replaceFirstColon]
  | cons c rest ih =>
    have hc : c ≠ ':' := fun h => hb (h ▸ List.mem_cons_self c rest)
    have hr : ':' ∉ rest := fun h => hb (List.mem_cons_of_mem _ h)
    simp [replaceFirstColon, hc, ih hr]

theorem splitAtColon : ∀ {s f : List Char}, afterColon s = some f →
    s = beforeColon s ++ ':' :: f ∧ ':' ∉ beforeColon s := by
  intro s
  induction s with
  | nil => intro f h; simp [afterColon] at h
  | cons c rest ih =>
    intro f h
    by_cases hc : c = ':'
    · subst hc
      simp [afterColon] at h
      subst h
      simp [beforeColon]
    · rw [afterColon, if_neg hc] at h
      obtain ⟨h1, h2⟩ := ih h
      refine ⟨?_, ?_⟩
      · rw [beforeColon, if_neg hc, List.cons_append]
        exact congrArg (c :: ·) h1
      · rw [beforeColon, if_neg hc]
        intro hm
        rcases List.mem_cons.mp hm with h3 | h3
        · exact hc h3.symm
        · exact h2 h3

theorem underscoreSplitUnique : ∀ {a b u v : List Char},
    '_' ∉ a → '_' ∉ b → a ++ '_' :: u = b ++ '_' :: v → a = b ∧ u = v := by
  intro a
  induction a with
  | nil =>
    intro b u v _ hb h
    cases b with
    | nil => simpa using h
    | cons y bs =>
      simp only [List.nil_append, List.cons_append, List.cons.injEq] at h
      exact absurd (h.1 ▸ List.mem_cons_self y bs) hb
  | cons x as ih =>
    intro b u v ha hb h
    cases b with
    | nil =>
      simp only [List.nil_append, List.cons_append, List.cons.injEq] at h
      exact absurd (h.1 ▸ List.mem_cons_self x as) ha
    | cons y bs =>
      simp only [List.cons_append, List.cons.injEq] at h
      have ha' : '_' ∉ as := fun hm => ha (List.mem_cons_of_mem _ hm)
      have hb' : '_' ∉ bs := fun hm => hb (List.mem_cons_of_mem _ hm)
      obtain ⟨h1, h2⟩ := ih ha' hb' h.2
      exact ⟨by rw [h.1, h1], h2⟩

theorem leadsWith_append {p a : List Char} (r : List Char)
    (h : leadsWith p a = true) : leadsWith p (a ++ r) = true := by
  induction p generalizing a with
  | nil => simp [leadsWith]
  | cons x xs ih =>
    cases a with
    | nil => simp [leadsWith] at h
    | cons y ys =>
      simp only [leadsWith, Bool.and_eq_true, beq_iff_eq] at h
      simp only [List.cons_append, leadsWith, Bool.and_eq_true, beq_iff_eq]
      exact ⟨h.1, ih h.2⟩

theorem dropLeadSlash_of {l : List Char} (h : '/' ∉ l) : dropLeadSlash l = l := by
  cases l with
  | nil => rfl
  | cons c rest =>
    have hc : c ≠ '/' := fun hh => h (hh ▸ List.mem_cons_self c rest)
    simp [dropLeadSlash, hc]

theorem stripLeadSlash_of {s : String} (h : '/' ∉ s.data) :
    stripLeadSlash s = s := by
  apply strExt
  simpa [stripLeadSlash] using dropLeadSlash_of h

theorem append_colon_data (b f : String) :
    (b ++ ":" ++ f).data = b.data ++ ':' :: f.data := by
  have h1 : (":" : String).data = [':'] := rfl
  simp [String.data_append, h1]

theorem mk_data (s : String) : String.mk s.data = s := by cases s; rfl

theorem append_underscore_data (b f : String) :
    (b ++ "_" ++ f).data = b.data ++ '_' :: f.data := by
  have h1 : ("_" : String).data = ['_'] := rfl
  simp [String.data_append, h1]

theorem extract_append {b f : String} (hb : ':' ∉ b.data) :
    extractBatchJobIdFromFileId (b ++ ":" ++ f) = some b := by
  simp [extractBatchJobIdFromFileId, append_colon_data, afterColon_append hb,
    beforeColon_append hb, mk_data]

theorem folderName_append {b f : String} (hb : ':' ∉ b.data) :
    fileIdToFolderName (b ++ ":" ++ f) = b ++ "_" ++ f := by
  apply strExt
  simp [fileIdToFolderName, append_colon_data, replaceFirstColon_append hb,
    append_underscore_data]

theorem batchFileName_append {b f : String} (hb : ':' ∉ b.data) :
    batchFileName (b ++ ":" ++ f) = some f := by
  simp [batchFileName, append_colon_data, afterColon_append hb, mk_data]

theorem isBatch_append (b f : String) :
    isBatchDocument (b ++ ":" ++ f) = true := by
  simp [isBatchDocument, hasChar, append_colon_data]

theorem validBatchFileId_parts {fileId b : String}
    (hv : validBatchFileId fileId = true)
    (hb : extractBatchJobIdFromFileId fileId = some b) :
    fileId.data.isEmpty = false ∧ hasTraversal fileId = false ∧
      b.data.isEmpty = false := by
  unfold validBatchFileId at hv
  rw [hb] at hv
  simp only [Bool.and_eq_true, Bool.not_eq_true'] at hv
  exact ⟨hv.1.1, hv.1.2, hv.2⟩

theorem structureRoute_unfold {fs : FSState} {fileId b : String}
    (hv : validBatchFileId fileId = true)
    (hb : extractBatchJobIdFromFileId fileId = some b) :
    batchFileStructureRoute fs fileId =
      if fileExists fs (pathJoin [BATCH_OUTPUTS_DIR, b, fileIdToFolderName fileId,
          "output", "processing", "output_tree.json"]) then
        BatchRes.okPath (pathJoin [BATCH_OUTPUTS_DIR, b, fileIdToFolderName fileId,
          "output", "processing", "output_tree.json"])
      else BatchRes.notFoundErr "Document structure not found" := by
  obtain ⟨h1, h2, h3⟩ := validBatchFileId_parts hv hb
  simp [batchFileStructureRoute, h1, h2, hb, h3]

theorem imagesRoute_unfold {fs : FSState} {fileId b : String}
    (hv : validBatchFileId fileId = true)
    (hb : extractBatchJobIdFromFileId fileId = some b) :
    batchFileImagesRoute fs fileId =
      match dirEntriesOf fs (pathJoin [BATCH_OUTPUTS_DIR, b,
          fileIdToFolderName fileId, "output", "processing"]) with
      | none => BatchRes.okList []
      | some entries =>
        BatchRes.okList ((entries.map (fun e => e.name)).filter isBatchImageName) := by
  obtain ⟨h1, h2, h3⟩ := validBatchFileId_parts hv hb
  simp [batchFileImagesRoute, h1, h2, hb, h3]

theorem serveRoute_unfold {fs : FSState} {fileId b imageName : String}
    (hv : validBatchFileId fileId = true)
    (hb : extractBatchJobIdFromFileId fileId = some b)
    (hin : imageName.data.isEmpty = false)
    (hit : hasTraversal imageName = false) :
    batchFileImageServeRoute fs fileId imageName =
      if fileExists fs (pathJoin [BATCH_OUTPUTS_DIR, b, fileIdToFolderName fileId,
          "output", "processing", imageName]) then
        BatchRes.okStream (pathJoin [BATCH_OUTPUTS_DIR, b, fileIdToFolderName fileId,
          "output", "processing", imageName]) (contentTypeFor imageName)
      else BatchRes.notFoundErr "Image not found" := by
  obtain ⟨h1, h2, h3⟩ := validBatchFileId_parts hv hb
  simp [batchFileImageServeRoute, h1, h2, hb, h3, hin, hit]

theorem pdfRoute_unfold {fs : FSState} {fileId b : String}
    (hv : validBatchFileId fileId = true)
    (hb : extractBatchJobIdFromFileId fileId = some b) :
    batchFilePdfRoute fs fileId =
      if fileExists fs (pathJoin [BATCH_OUTPUTS_DIR, b, fileIdToFolderName fileId,
          "input", "original.pdf"]) then
        BatchRes.okStream (pathJoin [BATCH_OUTPUTS_DIR, b, fileIdToFolderName fileId,
          "input", "original.pdf"]) "application/pdf"
      else BatchRes.notFoundErr "PDF not found" := by
  obtain ⟨h1, h2, h3⟩ := validBatchFileId_parts hv hb
  simp [batchFilePdfRoute, h1, h2, hb, h3]

theorem hasAccess_iff (db : List DocRecord) (id : String) (gs : List String) :
    hasAccess db id gs = true ↔
      ∃ r, findDocument db id = some r ∧ r.isActive = true ∧
        ∃ g ∈ r.permissions, g ∈ gs := by
  unfold hasAccess
  cases hf : findDocument db id with
  | none => simp
  | some r => simp [List.any_eq_true]

theorem docNotFoundLong_ne_accessDenied (x y : String) :
    ("Document with id \"" ++ x ++ "\" not found in path " ++ y ++
      " or missing output_tree.json") ≠ accessDeniedMsg := by
  intro h
  have hl := congrArg String.length h
  simp only [String.length_append] at hl
  have h1 : ("Document with id \"" : String).length = 18 := by decide
  have h2 : ("\" not found in path " : String).length = 20 := by decide
  have h3 : (" or missing output_tree.json" : String).length = 28 := by decide
  have h4 : accessDeniedMsg.length = 63 := by decide
  rw [h1, h2, h3, h4] at hl
  omega

theorem contentTypeFor_not_allowed {imageName : String}
    (h : lowerStr (extname imageName) ∉
      ([".jpeg", ".jpg", ".png", ".gif", ".webp"] : List String)) :
    contentTypeFor imageName = "application/octet-stream" := by
  simp only [List.mem_cons, List.not_mem_nil, or_false, not_or] at h
  obtain ⟨h1, h2, h3, h4, h5⟩ := h
  simp [contentTypeFor, h1, h2, h3, h4, h5]

theorem lexLeChars_total : ∀ a b : List Char,
    lexLeChars a b = true ∨ lexLeChars b a = true := by
  intro a
  induction a with
  | nil => intro b; left; rfl
  | cons x xs ih =>
    intro b
    cases b with
    | nil => right; rfl
    | cons y ys =>
      by_cases hxy : x = y
      · subst hxy
        rcases ih ys with h | h
        · left; simpa [lexLeChars] using h
        · right; simpa [lexLeChars] using h
      · rcases lt_or_gt_of_ne hxy with h | h
        · left; simp [lexLeChars, hxy, h]
        · right; simp [lexLeChars, Ne.symm hxy, h]

theorem lexLeChars_trans : ∀ {a b c : List Char},
    lexLeChars a b = true → lexLeChars b c = true → lexLeChars a c = true := by
  intro a
  induction a with
  | nil => intro b c _ _; rfl
  | cons x xs ih =>
    intro b c hab hbc
    cases b with
    | nil => simp [lexLeChars] at hab
    | cons y ys =>
      cases c with
      | nil => simp [lexLeChars] at hbc
      | cons z zs =>
        by_cases hxy : x = y <;> by_cases hyz : y = z
        · subst hxy; subst hyz
          simp only [lexLeChars, if_pos rfl] at hab hbc ⊢
          exact ih hab hbc
        · subst hxy
          simp only [lexLeChars, if_pos rfl] at hab
          rw [lexLeChars, if_neg hyz] at hbc ⊢
          exact hbc
        · subst hyz
          rw [lexLeChars, if_neg hxy] at hab
          rw [lexLeChars, if_neg hxy]
          exact hab
        · rw [lexLeChars, if_neg hxy] at hab
          rw [lexLeChars, if_neg hyz] at hbc
          have hx : x < y := of_decide_eq_true hab
          have hy : y < z := of_decide_eq_true hbc
          have hxz : x < z := lt_trans hx hy
          rw [lexLeChars, if_neg (ne_of_lt hxz)]
          exact decide_eq_true hxz

theorem strLe_total (a b : String) : strLe a b = true ∨ strLe b a = true :=
  lexLeChars_total a.data b.data

theorem strLe_trans {a b c : String} (h1 : strLe a b = true)
    (h2 : strLe b c = true) : strLe a c = true :=
  lexLeChars_trans h1 h2

theorem mem_insertSorted {x s : String} : ∀ {l : List String},
    x ∈ insertSorted s l ↔ x = s ∨ x ∈ l := by
  intro l
  induction l with
  | nil => simp [insertSorted]
  | cons t rest ih =>
    by_cases h : strLe s t = true
    · simp [insertSorted, h]
    · simp only [insertSorted, if_neg h, List.mem_cons, ih]
      tauto

theorem insertSorted_pairwise {s : String} : ∀ {l : List String},
    List.Pairwise (fun a b => strLe a b = true) l →
    List.Pairwise (fun a b => strLe a b = true) (insertSorted s l) := by
  intro l
  induction l with
  | nil => intro _; simp [insertSorted]
  | cons t rest ih =>
    intro h
    rw [List.pairwise_cons] at h
    obtain ⟨ht, hrest⟩ := h
    by_cases hst : strLe s t = true
    · rw [insertSorted, if_pos hst, List.pairwise_cons]
      refine ⟨?_, List.pairwise_cons.mpr ⟨ht, hrest⟩⟩
      intro y hy
      rcases List.mem_cons.mp hy with hy | hy
      · exact hy ▸ hst
      · exact strLe_trans hst (ht y hy)
    · have hts : strLe t s = true := (strLe_total s t).resolve_left hst
      rw [insertSorted, if_neg hst, List.pairwise_cons]
      refine ⟨?_, ih hrest⟩
      intro y hy
      rcases mem_insertSorted.mp hy with hy | hy
      · exact hy ▸ hts
      · exact ht y hy

theorem sortStrings_pairwise : ∀ l : List String,
    List.Pairwise (fun a b => strLe a b = true) (sortStrings l) := by
  intro l
  induction l with
  | nil => simp [sortStrings]
  | cons s rest ih => exact insertSorted_pairwise ih

theorem mem_filterMapId {db : List DocRecord} (q : DocRecord → Bool) {e : String}
    (hnd : (db.map (fun r => r.documentId)).Nodup) :
    e ∈ (db.filter q).map (fun r => r.documentId) ↔
      ∃ r, findDocument db e = some r ∧ q r = true := by
  induction db with
  | nil => simp [findDocument]
  | cons r rest ih =>
    rw [List.map_cons, List.nodup_cons] at hnd
    obtain ⟨hni, hnd'⟩ := hnd
    have hsub : e ∈ (rest.filter q).map (fun r => r.documentId) →
        e ∈ rest.map (fun r => r.documentId) := by
      intro hm
      rcases List.mem_map.mp hm with ⟨r', hr', hid⟩
      exact List.mem_map.mpr ⟨r', (List.mem_filter.mp hr').1, hid⟩
    by_cases he : r.documentId = e
    · have hfd : findDocument (r :: rest) e = some r := by
        simp [findDocument, List.find?, he]
      rw [hfd]
      cases hq : q r with
      | true => simp [List.filter_cons, hq, he]
      | false =>
        rw [List.filter_cons, if_neg (by simp [hq])]
        constructor
        · intro hm
          exact absurd (he ▸ hsub hm) hni
        · rintro ⟨r', hr', hq2⟩
          rw [Option.some_inj] at hr'
          rw [← hr'] at hq2
          rw [hq] at hq2
          exact absurd hq2 (by simp)
    · have hbe : (r.documentId == e) = false := by simp [he]
      have hfd : findDocument (r :: rest) e = findDocument rest e := by
        simp [findDocument, List.find?, hbe]
      rw [hfd]
      rw [List.filter_cons]
      cases hq : q r with
      | true =>
        rw [if_pos rfl, List.map_cons, List.mem_cons, ih hnd']
        constructor
        · rintro (h1 | h1)
          · exact absurd h1.symm he
          · exact h1
        · intro h1
          right
          exact h1
      | false =>
        rw [if_neg (by simp)]
        exact ih hnd'

theorem mem_findAll {db : List DocRecord} {e : String}
    (hnd : (db.map (fun r => r.documentId)).Nodup) :
    e ∈ findAll db ↔ ∃ r, findDocument db e = some r ∧ r.isActive = true := by
  unfold findAll
  exact mem_filterMapId _ hnd

theorem mem_findByGroupIds {db : List DocRecord} {e : String} {gs : List String}
    (hnd : (db.map (fun r => r.documentId)).Nodup) :
    e ∈ findByGroupIds db gs ↔
      ∃ r, findDocument db e = some r ∧ r.isActive = true ∧
        ∃ g ∈ r.permissions, g ∈ gs := by
  unfold findByGroupIds
  rw [mem_filterMapId _ hnd]
  apply exists_congr
  intro r
  simp [List.any_eq_true, and_assoc]

theorem strAppend_assoc (a b c : String) : a ++ b ++ c = a ++ (b ++ c) := by
  apply strExt
  simp [String.data_append]

theorem data_isEmpty_false_of_colon (b f : String) :
    (b ++ ":" ++ f).data.isEmpty = false := by
  rw [append_colon_data]
  simp

theorem validBatchFileId_of_parts {b f : String} (hcolon : ':' ∉ b.data)
    (hne : b.data ≠ []) (htrav : hasTraversal (b ++ ":" ++ f) = false) :
    validBatchFileId (b ++ ":" ++ f) = true := by
  unfold validBatchFileId
  rw [extract_append hcolon]
  simp [data_isEmpty_false_of_colon, htrav, hne]

/-! ## Claim theorems -/

/-- Claim C7: for every valid composite batch identifier of the form `B:F`
(`B` the substring before the first colon, `F` the remainder), the code
extracts batch job id `B` and file name `F`, maps the identifier to the
folder segment `B_F`, and the PDF route resolves and serves the path
`<batchRoot>/B/B_F/input/original.pdf` whenever that file exists. -/
theorem c7_batch_id_resolution (fs : FSState) (b f : String)
    (hcolon : ':' ∉ b.data) (hne : b.data ≠ [])
    (htrav : hasTraversal (b ++ ":" ++ f) = false) :
    extractBatchJobIdFromFileId (b ++ ":" ++ f) = some b ∧
    batchFileName (b ++ ":" ++ f) = some f ∧
    fileIdToFolderName (b ++ ":" ++ f) = b ++ "_" ++ f ∧
    (fileExists fs (pathJoin [BATCH_OUTPUTS_DIR, b, b ++ "_" ++ f,
        "input", "original.pdf"]) = true →
      batchFilePdfRoute fs (b ++ ":" ++ f) =
        BatchRes.okStream (pathJoin [BATCH_OUTPUTS_DIR, b, b ++ "_" ++ f,
          "input", "original.pdf"]) "application/pdf") ∧
    pathJoin [BATCH_OUTPUTS_DIR, b, b ++ "_" ++ f, "input", "original.pdf"] =
      BATCH_OUTPUTS_DIR ++ "/" ++ b ++ "/" ++ (b ++ "_" ++ f) ++ "/" ++
        "input" ++ "/" ++ "original.pdf" := by
  have hv : validBatchFileId (b ++ ":" ++ f) = true :=
    validBatchFileId_of_parts hcolon hne htrav
  have hb : extractBatchJobIdFromFileId (b ++ ":" ++ f) = some b :=
    extract_append hcolon
  have hfold : fileIdToFolderName (b ++ ":" ++ f) = b ++ "_" ++ f :=
    folderName_append hcolon
  have hslash : '/' ∉ (b ++ ":" ++ f).data := by
    have h2 : hasChar (b ++ ":" ++ f) '/' = false := by
      revert htrav
      unfold hasTraversal
      cases hasChar (b ++ ":" ++ f) '/' <;> simp
    simp only [hasChar] at h2
    simpa using h2
  have hsb : '/' ∉ b.data := by
    intro hm
    exact hslash (by rw [append_colon_data]; exact List.mem_append_left _ hm)
  have hsf : '/' ∉ f.data := by
    intro hm
    refine hslash ?_
    rw [append_colon_data]
    exact List.mem_append_right _ (List.mem_cons_of_mem _ hm)
  have hsfold : '/' ∉ (b ++ "_" ++ f).data := by
    rw [append_underscore_data]
    intro hm
    rcases List.mem_append.mp hm with h | h
    · exact hsb h
    · rcases List.mem_cons.mp h with h | h
      · exact absurd h.symm (by decide)
      · exact hsf h
  refine ⟨hb, batchFileName_append hcolon, hfold, ?_, ?_⟩
  · intro hex
    rw [pdfRoute_unfold hv hb, hfold, if_pos hex]
  · show pathJoin [BATCH_OUTPUTS_DIR, b, b ++ "_" ++ f, "input", "original.pdf"] = _
    rw [pathJoin, pathJoinRest, pathJoinRest, pathJoinRest, pathJoinRest]
    rw [stripLeadSlash_of hsb, stripLeadSlash_of hsfold]
    rw [show stripLeadSlash "input" = "input" by decide]
    rw [show stripLeadSlash "original.pdf" = "original.pdf" by decide]
    simp [strAppend_assoc]

/-- Witness for C7 at the spec's concrete scenario
`"ALI10-123.5:pdf1.pdf"`. -/
theorem c7_batch_id_resolution_witness :
    extractBatchJobIdFromFileId "ALI10-123.5:pdf1.pdf" = some "ALI10-123.5" ∧
    batchFileName "ALI10-123.5:pdf1.pdf" = some "pdf1.pdf" ∧
    fileIdToFolderName "ALI10-123.5:pdf1.pdf" = "ALI10-123.5_pdf1.pdf" ∧
    batchFilePdfRoute
      ⟨["/home/alimohammad/AIComps/comps/pdf-parser/batch_processing/ALI10-123.5/ALI10-123.5_pdf1.pdf/input/original.pdf"], []⟩
      "ALI10-123.5:pdf1.pdf" =
      BatchRes.okStream
        "/home/alimohammad/AIComps/comps/pdf-parser/batch_processing/ALI10-123.5/ALI10-123.5_pdf1.pdf/input/original.pdf"
        "application/pdf" := by
  obtain ⟨h1, h2, h3, h4, _⟩ := c7_batch_id_resolution
    ⟨["/home/alimohammad/AIComps/comps/pdf-parser/batch_processing/ALI10-123.5/ALI10-123.5_pdf1.pdf/input/original.pdf"], []⟩
    "ALI10-123.5" "pdf1.pdf" (by decide) (by decide) (by decide)
  have hid : ("ALI10-123.5" : String) ++ ":" ++ "pdf1.pdf" = "ALI10-123.5:pdf1.pdf" := by
    decide
  have hp : pathJoin [BATCH_OUTPUTS_DIR, "ALI10-123.5",
      ("ALI10-123.5" : String) ++ "_" ++ "pdf1.pdf", "input", "original.pdf"] =
      "/home/alimohammad/AIComps/comps/pdf-parser/batch_processing/ALI10-123.5/ALI10-123.5_pdf1.pdf/input/original.pdf" := by
    decide
  have h4' := h4 (by rw [hp]; decide)
  rw [hid] at h1 h2 h3 h4'
  rw [hp] at h4'
  refine ⟨h1, h2, ?_, h4'⟩
  rw [h3]
  decide

/-- Claim C6 counterexample: the colon-to-underscore mapping is not injective
over the validated input space - the two distinct valid composite identifiers
`"a_b:c"` and `"a:b_c"` (each component free of `:`, `/`, `\`, `..`) collide
on the folder segment `"a_b_c"`. -/
theorem c6_folder_segment_collision :
    validBatchFileId "a_b:c" = true ∧ validBatchFileId "a:b_c" = true ∧
    ("a_b:c" : String) ≠ "a:b_c" ∧
    fileIdToFolderName "a_b:c" = fileIdToFolderName "a:b_c" := by
  refine ⟨by decide, by decide, by decide, by decide⟩

/-- Claim C6 (amended): the colon-to-underscore mapping is injective on the
validated identifiers whose batch-job-id component (the part before the first
colon) contains no underscore; without that restriction distinct identifiers
can collide. -/
theorem c6_folder_segment_injective {x y : String}
    (hx : validBatchFileId x = true) (hy : validBatchFileId y = true)
    (hux : '_' ∉ beforeColon x.data) (huy : '_' ∉ beforeColon y.data)
    (h : fileIdToFolderName x = fileIdToFolderName y) : x = y := by
  have hax : ∃ fx, afterColon x.data = some fx := by
    revert hx
    unfold validBatchFileId extractBatchJobIdFromFileId
    cases afterColon x.data <;> simp
  have hay : ∃ fy, afterColon y.data = some fy := by
    revert hy
    unfold validBatchFileId extractBatchJobIdFromFileId
    cases afterColon y.data <;> simp
  obtain ⟨fx, hfx⟩ := hax
  obtain ⟨fy, hfy⟩ := hay
  obtain ⟨hxeq, hxcol⟩ := splitAtColon hfx
  obtain ⟨hyeq, hycol⟩ := splitAtColon hfy
  have hdata := congrArg String.data h
  simp only [fileIdToFolderName] at hdata
  rw [show replaceFirstColon x.data =
      replaceFirstColon (beforeColon x.data ++ ':' :: fx) from by rw [← hxeq]] at hdata
  rw [show replaceFirstColon y.data =
      replaceFirstColon (beforeColon y.data ++ ':' :: fy) from by rw [← hyeq]] at hdata
  rw [replaceFirstColon_append hxcol, replaceFirstColon_append hycol] at hdata
  obtain ⟨hbef, hrest⟩ := underscoreSplitUnique hux huy hdata
  apply strExt
  rw [hxeq, hyeq, hbef, hrest]

/-- Witness for the amended C6 at a concrete valid identifier. -/
theorem c6_folder_segment_injective_witness :
    validBatchFileId "j1:f.pdf" = true ∧
    ('_' ∉ beforeColon ("j1:f.pdf" : String).data) ∧
    ("j1:f.pdf" : String) = "j1:f.pdf" :=
  ⟨by decide, by decide,
    c6_folder_segment_injective (x := "j1:f.pdf") (y := "j1:f.pdf")
      (by decide) (by decide) (by decide) (by decide) rfl⟩

/-- Claim C10: for the batch image-serving route, any image name passing the
traversal checks is streamed whenever the file exists under the batch file's
processing folder, regardless of extension; a name whose extension lies
outside the allow-list is streamed with Content-Type
`application/octet-stream` rather than rejected. -/
theorem c10_serve_ignores_allowlist (fs : FSState) (fileId b imageName : String)
    (hv : validBatchFileId fileId = true)
    (hb : extractBatchJobIdFromFileId fileId = some b)
    (hin : imageName.data.isEmpty = false)
    (hit : hasTraversal imageName = false)
    (hex : fileExists fs (pathJoin [BATCH_OUTPUTS_DIR, b,
      fileIdToFolderName fileId, "output", "processing", imageName]) = true) :
    batchFileImageServeRoute fs fileId imageName =
      BatchRes.okStream (pathJoin [BATCH_OUTPUTS_DIR, b,
        fileIdToFolderName fileId, "output", "processing", imageName])
        (contentTypeFor imageName) ∧
    (lowerStr (extname imageName) ∉
        ([".jpeg", ".jpg", ".png", ".gif", ".webp"] : List String) →
      contentTypeFor imageName = "application/octet-stream") := by
  constructor
  · rw [serveRoute_unfold hv hb hin hit, if_pos hex]
  · exact contentTypeFor_not_allowed

/-- Witness for C10: a `.txt` file under the processing folder is served
with the octet-stream fallback content type. -/
theorem c10_serve_ignores_allowlist_witness :
    batchFileImageServeRoute
      ⟨["/home/alimohammad/AIComps/comps/pdf-parser/batch_processing/J1/J1_f.pdf/output/processing/x.txt"], []⟩
      "J1:f.pdf" "x.txt" =
      BatchRes.okStream
        "/home/alimohammad/AIComps/comps/pdf-parser/batch_processing/J1/J1_f.pdf/output/processing/x.txt"
        "application/octet-stream" := by
  obtain ⟨h1, h2⟩ := c10_serve_ignores_allowlist
    ⟨["/home/alimohammad/AIComps/comps/pdf-parser/batch_processing/J1/J1_f.pdf/output/processing/x.txt"], []⟩
    "J1:f.pdf" "J1" "x.txt" (by decide) (by decide) (by decide) (by decide)
    (by decide)
  rw [h1, h2 (by decide)]
  decide

/-- Claim C2 counterexample: the documents endpoint performs no traversal
rejection at all - the identifier `"a:../x"`, which contains `..` and a path
separator, is not answered with a client-error rejection; instead a
filesystem path containing `..` is constructed from it and probed (the path
appears verbatim in the 404 message), for any authenticated principal. -/
theorem c2_documents_route_builds_traversal_path :
    getDocumentById [] ⟨[], []⟩ "a:../x" [] false =
      SvcRes.err "Batch document \"a:../x\" not found at /home/alimohammad/AIComps/comps/pdf-parser/batch_processing/a/a_../x/output/processing/output_tree.json" ∧
    docRouteGetById [] ⟨[], []⟩ "a:../x" [] false =
      ⟨404, "Document not found",
        "Batch document \"a:../x\" not found at /home/alimohammad/AIComps/comps/pdf-parser/batch_processing/a/a_../x/output/processing/output_tree.json"⟩ ∧
    hasDotDot (pathJoin [BATCH_OUTPUTS_DIR, "a", fileIdToFolderName "a:../x",
      "output", "processing", "output_tree.json"]) = true := by
  refine ⟨by decide, by decide, by decide⟩

/-- Claim C2 (amended): the `..`/`/`/`\` rejection holds on the four batch
file routes - any file id containing a traversal sequence or separator is
answered with a 400-class client error, and the outcome is independent of
the filesystem state (no path is consulted); the documents endpoint performs
no such rejection and constructs paths from the raw identifier. -/
theorem c2_batch_routes_reject_traversal (fs fs' : FSState)
    (fileId imageName : String) (htrav : hasTraversal fileId = true)
    (himg : imageName.data.isEmpty = false) :
    batchFileStructureRoute fs fileId = BatchRes.clientError "Invalid file ID" ∧
    batchFileImagesRoute fs fileId = BatchRes.clientError "Invalid file ID" ∧
    batchFilePdfRoute fs fileId = BatchRes.clientError "Invalid file ID" ∧
    batchFileImageServeRoute fs fileId imageName =
      BatchRes.clientError "Invalid file ID or image name" ∧
    batchFileStructureRoute fs fileId = batchFileStructureRoute fs' fileId := by
  have hne : fileId.data.isEmpty = false := by
    cases hd : fileId.data.isEmpty
    · rfl
    · exfalso
      have h0 : fileId.data = [] := by simpa using hd
      have h1 : fileId = "" := strExt (by rw [h0])
      rw [h1] at htrav
      exact absurd htrav (by decide)
  refine ⟨?_, ?_, ?_, ?_, ?_⟩ <;>
    simp [batchFileStructureRoute, batchFileImagesRoute, batchFilePdfRoute,
      batchFileImageServeRoute, hne, htrav, himg]

/-- Witness for the amended C2 at the spec's example `"../etc"`. -/
theorem c2_batch_routes_reject_traversal_witness :
    hasTraversal "../etc" = true ∧
    batchFileStructureRoute ⟨[], []⟩ "../etc" =
      BatchRes.clientError "Invalid file ID" ∧
    batchFilePdfRoute ⟨[], []⟩ "../etc" =
      BatchRes.clientError "Invalid file ID" ∧
    batchFileImageServeRoute ⟨[], []⟩ "../etc" "x.png" =
      BatchRes.clientError "Invalid file ID or image name" := by
  obtain ⟨h1, _h2, h3, h4, _h5⟩ := c2_batch_routes_reject_traversal
    ⟨[], []⟩ ⟨["p"], []⟩ "../etc" "x.png" (by decide) (by decide)
  exact ⟨by decide, h1, h3, h4⟩

/-- Claim C1 counterexample: the document-service image listing consults the
document ACL before its batch branch - with no database record for the raw
composite id, a non-admin authenticated principal is denied the image list
of batch file `"J:f.pdf"` even though its processing folder exists on disk
with an image in it. -/
theorem c1_batch_images_acl_denial :
    getDocumentImages []
      ⟨[], [("/home/alimohammad/AIComps/comps/pdf-parser/batch_processing/J/J_f.pdf/output/processing",
        [⟨"p1.png", true⟩])]⟩
      "J:f.pdf" ["g1"] false = SvcRes.err accessDeniedMsg ∧
    dirEntriesOf
      ⟨[], [("/home/alimohammad/AIComps/comps/pdf-parser/batch_processing/J/J_f.pdf/output/processing",
        [⟨"p1.png", true⟩])]⟩
      (pathJoin [BATCH_OUTPUTS_DIR, "J", fileIdToFolderName "J:f.pdf",
        "output", "processing"]) = some [⟨"p1.png", true⟩] := by
  refine ⟨by decide, by decide⟩

/-- Claim C1 (amended): batch identifiers bypass the document ACL in the
structure-retrieval path (whose result is independent of the database, the
principal's groups, and the admin flag) and on the authenticated batch
routes, which succeed whenever the file exists; but the document-service
image listing checks the ACL on the raw composite id before its batch
branch, so a non-admin principal without a matching database record is
denied there. -/
theorem c1_batch_acl_bypass (db : List DocRecord) (fs : FSState)
    (documentId : String) (gs : List String) (isAdmin : Bool)
    (hbatch : isBatchDocument documentId = true) :
    getDocumentById db fs documentId gs isAdmin =
      getBatchDocumentStructure fs documentId ∧
    (∀ fileId b, validBatchFileId fileId = true →
      extractBatchJobIdFromFileId fileId = some b →
      fileExists fs (pathJoin [BATCH_OUTPUTS_DIR, b, fileIdToFolderName fileId,
        "output", "processing", "output_tree.json"]) = true →
      batchFileStructureRoute fs fileId =
        BatchRes.okPath (pathJoin [BATCH_OUTPUTS_DIR, b,
          fileIdToFolderName fileId, "output", "processing",
          "output_tree.json"])) ∧
    (hasAccess db documentId gs = false →
      getDocumentImages db fs documentId gs false =
        SvcRes.err accessDeniedMsg) := by
  refine ⟨?_, ?_, ?_⟩
  · simp [getDocumentById, hbatch]
  · intro fileId b hv hb hex
    rw [structureRoute_unfold hv hb, if_pos hex]
  · intro hacc
    simp [getDocumentImages, checkAccess, hacc]

/-- Witness for the amended C1 at a concrete batch file present on disk. -/
theorem c1_batch_acl_bypass_witness :
    getDocumentById [] ⟨["/home/alimohammad/AIComps/comps/pdf-parser/batch_processing/J/J_f.pdf/output/processing/output_tree.json"], []⟩
        "J:f.pdf" ["g1"] false =
      getBatchDocumentStructure
        ⟨["/home/alimohammad/AIComps/comps/pdf-parser/batch_processing/J/J_f.pdf/output/processing/output_tree.json"], []⟩
        "J:f.pdf" ∧
    batchFileStructureRoute
        ⟨["/home/alimohammad/AIComps/comps/pdf-parser/batch_processing/J/J_f.pdf/output/processing/output_tree.json"], []⟩
        "J:f.pdf" =
      BatchRes.okPath
        "/home/alimohammad/AIComps/comps/pdf-parser/batch_processing/J/J_f.pdf/output/processing/output_tree.json" ∧
    getDocumentImages []
        ⟨["/home/alimohammad/AIComps/comps/pdf-parser/batch_processing/J/J_f.pdf/output/processing/output_tree.json"], []⟩
        "J:f.pdf" ["g1"] false = SvcRes.err accessDeniedMsg := by
  obtain ⟨h1, h2, h3⟩ := c1_batch_acl_bypass []
    ⟨["/home/alimohammad/AIComps/comps/pdf-parser/batch_processing/J/J_f.pdf/output/processing/output_tree.json"], []⟩
    "J:f.pdf" ["g1"] false (by decide)
  refine ⟨h1, ?_, h3 (by decide)⟩
  have h2' := h2 "J:f.pdf" "J" (by decide) (by decide) (by decide)
  rw [h2']
  decide

theorem getDocumentById_grant_ne {db : List DocRecord} {fs : FSState}
    {documentId : String} {gs : List String} {isAdmin : Bool}
    (hb : isBatchDocument documentId = false)
    (hcond : (!isAdmin && !(checkAccess db documentId gs)) = false) :
    getDocumentById db fs documentId gs isAdmin ≠ SvcRes.err accessDeniedMsg := by
  unfold getDocumentById
  rw [if_neg (by simp [hb])]
  rw [if_neg (by simp [hcond])]
  cases hex : fileExists fs (pathJoin [OUTPUTS_DIR, documentId, OUTPUT_TREE_FILENAME])
  · rw [if_neg (by simp [hex])]
    intro hcontra
    exact docNotFoundLong_ne_accessDenied documentId _ (SvcRes.err.inj hcontra)
  · rw [if_pos (by simp [hex])]
    intro hcontra
    exact SvcRes.noConfusion hcontra

/-- Claim C3: for simple-identifier retrieval by a non-admin principal, the
externally visible denial for a document with no database record is
identical in shape (status, error label, message) to the denial for a
document whose record exists but whose permission set does not intersect
the principal's groups: in both cases the access check fails first and the
route answers `500 / Failed to fetch document` with the fixed
access-denied message. -/
theorem c3_indistinguishable_denials (db : List DocRecord) (fs : FSState)
    (d1 d2 : String) (gs : List String) (r : DocRecord)
    (h1 : isBatchDocument d1 = false) (h2 : isBatchDocument d2 = false)
    (hf1 : findDocument db d1 = none) (hf2 : findDocument db d2 = some r)
    (hperm : ∀ g ∈ r.permissions, g ∉ gs) :
    docRouteGetById db fs d1 gs false = docRouteGetById db fs d2 gs false ∧
    docRouteGetById db fs d1 gs false =
      ⟨500, "Failed to fetch document", accessDeniedMsg⟩ := by
  have ha1 : hasAccess db d1 gs = false := by simp [hasAccess, hf1]
  have hany : (r.permissions.any fun g => gs.contains g) = false := by
    simp only [List.any_eq_false]
    intro g hg
    simpa using hperm g hg
  have ha2 : hasAccess db d2 gs = false := by
    simp [hasAccess, hf2, hany]
    exact fun _ => hperm
  have hocc : occursIn "not found".data accessDeniedMsg.data = false := by decide
  have key : ∀ d, isBatchDocument d = false → hasAccess db d gs = false →
      docRouteGetById db fs d gs false =
        ⟨500, "Failed to fetch document", accessDeniedMsg⟩ := by
    intro d hb hacc
    simp [docRouteGetById, getDocumentById, hb, checkAccess, hacc, hocc]
  exact ⟨(key d1 h1 ha1).trans (key d2 h2 ha2).symm, key d1 h1 ha1⟩

/-- Witness for C3 at the spec's scenario: `bob` (groups `{G2}`) receives
the same response for the nonexistent `"NOPE"` as for `"BMRA"`
(permissions `{G1}`). -/
theorem c3_indistinguishable_denials_witness :
    docRouteGetById [⟨"BMRA", ["G1"], true⟩] ⟨[], []⟩ "NOPE" ["G2"] false =
      docRouteGetById [⟨"BMRA", ["G1"], true⟩] ⟨[], []⟩ "BMRA" ["G2"] false ∧
    docRouteGetById [⟨"BMRA", ["G1"], true⟩] ⟨[], []⟩ "NOPE" ["G2"] false =
      ⟨500, "Failed to fetch document", accessDeniedMsg⟩ :=
  c3_indistinguishable_denials [⟨"BMRA", ["G1"], true⟩] ⟨[], []⟩
    "NOPE" "BMRA" ["G2"] ⟨"BMRA", ["G1"], true⟩
    (by decide) (by decide) (by decide) (by decide) (by decide)

/-- Claim C4: for a simple identifier, retrieval is granted (the
access-denied failure is not produced) iff the principal is an admin or the
document record exists, is active, and its permission set intersects the
principal's groups; and the admin listing path ignores the group set
entirely. -/
theorem c4_simple_authorize_iff (db : List DocRecord) (fs : FSState)
    (documentId : String) (gs : List String) (isAdmin : Bool)
    (hb : isBatchDocument documentId = false) :
    (getDocumentById db fs documentId gs isAdmin ≠ SvcRes.err accessDeniedMsg ↔
      (isAdmin = true ∨ ∃ r, findDocument db documentId = some r ∧
        r.isActive = true ∧ ∃ g ∈ r.permissions, g ∈ gs)) ∧
    (∀ gs', getAllDocuments db fs gs true = getAllDocuments db fs gs' true) := by
  constructor
  · constructor
    · intro hne
      by_cases hadm : isAdmin = true
      · exact Or.inl hadm
      · have hadm' : isAdmin = false := by revert hadm; cases isAdmin <;> simp
        right
        rw [← hasAccess_iff]
        by_contra hne2
        have hacc : hasAccess db documentId gs = false := by
          revert hne2; cases hasAccess db documentId gs <;> simp
        apply hne
        simp [getDocumentById, hb, hadm', checkAccess, hacc]
    · intro h
      apply getDocumentById_grant_ne hb
      rcases h with hadm | hP
      · simp [hadm]
      · have hacc : hasAccess db documentId gs = true :=
          (hasAccess_iff db documentId gs).mpr hP
        simp [checkAccess, hacc]
  · intro gs'
    rfl

/-- Witness for C4: `alice` in `G1` is granted `"BMRA"`, and the admin
listing does not depend on the group set. -/
theorem c4_simple_authorize_iff_witness :
    getDocumentById [⟨"BMRA", ["G1"], true⟩] ⟨[], []⟩ "BMRA" ["G1"] false ≠
      SvcRes.err accessDeniedMsg ∧
    getAllDocuments [⟨"BMRA", ["G1"], true⟩] ⟨[], []⟩ ["G1"] true =
      getAllDocuments [⟨"BMRA", ["G1"], true⟩] ⟨[], []⟩ [] true := by
  obtain ⟨hiff, hlist⟩ := c4_simple_authorize_iff [⟨"BMRA", ["G1"], true⟩]
    ⟨[], []⟩ "BMRA" ["G1"] false (by decide)
  exact ⟨hiff.mpr (Or.inr ⟨⟨"BMRA", ["G1"], true⟩, by decide, by decide,
    "G1", by decide, by decide⟩), hlist []⟩

/-- Claim C5: every document and batch endpoint sits behind the session
check - when the bearer token is absent, unknown, or expired, the request
ends in the 401-class `SessionInvalid` outcome, the handler never runs, and
no resource lookup or path construction occurs (the outcome is independent
of the filesystem and database states). -/
theorem c5_endpoints_require_session (tbl : List SessionRec) (now : Nat)
    (tok : Option String) (db : List DocRecord) (fs fs' : FSState)
    (fileId imageName id : String)
    (h : validateToken tbl now tok = none) :
    batchStructureEndpoint tbl now tok fs fileId = AuthOutcome.sessionInvalid ∧
    batchImagesEndpoint tbl now tok fs fileId = AuthOutcome.sessionInvalid ∧
    batchImageServeEndpoint tbl now tok fs fileId imageName =
      AuthOutcome.sessionInvalid ∧
    batchPdfEndpoint tbl now tok fs fileId = AuthOutcome.sessionInvalid ∧
    documentGetEndpoint tbl now tok db fs id = AuthOutcome.sessionInvalid ∧
    documentListEndpoint tbl now tok db fs = AuthOutcome.sessionInvalid ∧
    documentGetEndpoint tbl now tok db fs id =
      documentGetEndpoint tbl now tok db fs' id := by
  simp [batchStructureEndpoint, batchImagesEndpoint, batchImageServeEndpoint,
    batchPdfEndpoint, documentGetEndpoint, documentListEndpoint, withAuth, h]

/-- Witness for C5: an unknown bearer token and an expired session are both
answered with `SessionInvalid` on the batch structure and document detail
endpoints. -/
theorem c5_endpoints_require_session_witness :
    batchStructureEndpoint [⟨"t0", ⟨"u", ["g"], false⟩, 5⟩] 10 (some "t1")
      ⟨[], []⟩ "J:f.pdf" = AuthOutcome.sessionInvalid ∧
    documentGetEndpoint [⟨"t0", ⟨"u", ["g"], false⟩, 5⟩] 10 (some "t0")
      [] ⟨[], []⟩ "BMRA" = AuthOutcome.sessionInvalid := by
  obtain ⟨h1, _, _, _, _, _, _⟩ := c5_endpoints_require_session
    [⟨"t0", ⟨"u", ["g"], false⟩, 5⟩] 10 (some "t1") [] ⟨[], []⟩ ⟨[], []⟩
    "J:f.pdf" "x.png" "BMRA" (by decide)
  obtain ⟨_, _, _, _, h5, _, _⟩ := c5_endpoints_require_session
    [⟨"t0", ⟨"u", ["g"], false⟩, 5⟩] 10 (some "t0") [] ⟨[], []⟩ ⟨[], []⟩
    "J:f.pdf" "x.png" "BMRA" (by decide)
  exact ⟨h1, h5⟩

/-- Claim C9 counterexample: when the document folder does not exist, the
document-service image listing throws a not-found error rather than
returning an empty list (shown for an admin, for whom no ACL check
intervenes); and the batch images route returns the allow-listed names in
raw directory order, unsorted. -/
theorem c9_images_listing_divergences :
    getDocumentImages [] ⟨[], []⟩ "D" [] true =
      SvcRes.err "Document with id \"D\" not found" ∧
    batchFileImagesRoute
      ⟨[], [("/home/alimohammad/AIComps/comps/pdf-parser/batch_processing/J/J_f.pdf/output/processing",
        [⟨"b.png", true⟩, ⟨"a.png", true⟩])]⟩
      "J:f.pdf" = BatchRes.okList ["b.png", "a.png"] ∧
    strLe "b.png" "a.png" = false := by
  refine ⟨by decide, by decide, by decide⟩

/-- Claim C9 (amended): the document-service image listing (shown for an
admin principal) filters to the `{jpeg, jpg, png}` extensions and sorts the
names lexicographically, but throws a not-found error when the folder is
missing; the batch images route filters to `{jpeg, jpg, png, gif, webp}`,
preserves the raw directory order, and returns an empty list when the
processing folder is missing. -/
theorem c9_images_listing_behaviour (db : List DocRecord) (fs : FSState)
    (gs : List String) :
    (∀ docId ents, isBatchDocument docId = false →
      dirEntriesOf fs (pathJoin [OUTPUTS_DIR, docId]) = some ents →
      getDocumentImages db fs docId gs true =
        SvcRes.ok (sortStrings ((ents.filter
          (fun en => en.isFile && isSimpleImageName en.name)).map
          (fun en => en.name)))) ∧
    (∀ docId, isBatchDocument docId = false →
      dirEntriesOf fs (pathJoin [OUTPUTS_DIR, docId]) = none →
      getDocumentImages db fs docId gs true =
        SvcRes.err ("Document with id \"" ++ docId ++ "\" not found")) ∧
    (∀ fileId b ents, validBatchFileId fileId = true →
      extractBatchJobIdFromFileId fileId = some b →
      dirEntriesOf fs (pathJoin [BATCH_OUTPUTS_DIR, b, fileIdToFolderName fileId,
        "output", "processing"]) = some ents →
      batchFileImagesRoute fs fileId =
        BatchRes.okList ((ents.map (fun en => en.name)).filter isBatchImageName)) ∧
    (∀ fileId b, validBatchFileId fileId = true →
      extractBatchJobIdFromFileId fileId = some b →
      dirEntriesOf fs (pathJoin [BATCH_OUTPUTS_DIR, b, fileIdToFolderName fileId,
        "output", "processing"]) = none →
      batchFileImagesRoute fs fileId = BatchRes.okList []) ∧
    (∀ l, List.Pairwise (fun a b => strLe a b = true) (sortStrings l)) := by
  refine ⟨?_, ?_, ?_, ?_, sortStrings_pairwise⟩
  · intro docId ents hb hents
    simp [getDocumentImages, hb, hents]
  · intro docId hb hents
    simp [getDocumentImages, hb, hents]
  · intro fileId b ents hv hx hents
    rw [imagesRoute_unfold hv hx, hents]
  · intro fileId b hv hx hents
    rw [imagesRoute_unfold hv hx, hents]

/-- Witness for the amended C9 at concrete folders. -/
theorem c9_images_listing_behaviour_witness :
    getDocumentImages [] ⟨[],
        [("/home/alimohammad/pdf-results/D",
          [⟨"b.png", true⟩, ⟨"a.png", true⟩, ⟨"z.txt", true⟩])]⟩
      "D" [] true = SvcRes.ok ["a.png", "b.png"] ∧
    batchFileImagesRoute ⟨[], []⟩ "J:f.pdf" = BatchRes.okList [] := by
  obtain ⟨h1, _, _, h4, _⟩ := c9_images_listing_behaviour []
    ⟨[], [("/home/alimohammad/pdf-results/D",
      [⟨"b.png", true⟩, ⟨"a.png", true⟩, ⟨"z.txt", true⟩])]⟩ []
  constructor
  · rw [h1 "D" [⟨"b.png", true⟩, ⟨"a.png", true⟩, ⟨"z.txt", true⟩]
      (by decide) (by decide)]
    decide
  · obtain ⟨_, _, _, h4', _⟩ := c9_images_listing_behaviour [] ⟨[], []⟩ []
    exact h4' "J:f.pdf" "J" (by decide) (by decide) (by decide)

/-- Claim C8: the listing returns exactly the ids whose document record
passes the authorization predicate (for admins: any active record) and whose
directory is actually present under the outputs root at request time; a
record with no matching on-disk directory is silently omitted (the listing
is total, and a missing outputs root yields an empty listing, not an
error). -/
theorem c8_listing_exact (db : List DocRecord) (fs : FSState)
    (gs : List String) (isAdmin : Bool)
    (hnd : (db.map (fun r => r.documentId)).Nodup) :
    (∀ e : String,
      e ∈ (getAllDocuments db fs gs isAdmin).map (fun m => m.id) ↔
        ∃ ents, dirEntriesOf fs OUTPUTS_DIR = some ents ∧
          (∃ ent ∈ ents, ent.name = e ∧ ent.isFile = false) ∧
          ∃ r, findDocument db e = some r ∧ r.isActive = true ∧
            (isAdmin = true ∨ ∃ g ∈ r.permissions, g ∈ gs)) ∧
    (dirEntriesOf fs OUTPUTS_DIR = none →
      getAllDocuments db fs gs isAdmin = []) := by
  have hmemacc : ∀ x : String,
      x ∈ (if isAdmin then findAll db else findByGroupIds db gs) ↔
        ∃ r, findDocument db x = some r ∧ r.isActive = true ∧
          (isAdmin = true ∨ ∃ g ∈ r.permissions, g ∈ gs) := by
    intro x
    cases isAdmin with
    | false =>
      rw [if_neg (by simp), mem_findByGroupIds hnd]
      apply exists_congr
      intro r
      simp
    | true =>
      rw [if_pos rfl, mem_findAll hnd]
      apply exists_congr
      intro r
      simp
  have hga : ∀ ents, dirEntriesOf fs OUTPUTS_DIR = some ents →
      getAllDocuments db fs gs isAdmin =
        (ents.filter (fun en => !en.isFile &&
          (if isAdmin then findAll db else findByGroupIds db gs).contains en.name)).map
          (fun en =>
            { id := en.name, name := en.name,
              path := pathJoin [OUTPUTS_DIR, en.name],
              hasOutputTree := fileExists fs
                (pathJoin [pathJoin [OUTPUTS_DIR, en.name], OUTPUT_TREE_FILENAME]) }) := by
    intro ents hd
    unfold getAllDocuments
    rw [hd]
  constructor
  · intro e
    cases hd : dirEntriesOf fs OUTPUTS_DIR with
    | none =>
      have hempty : getAllDocuments db fs gs isAdmin = [] := by
        unfold getAllDocuments
        rw [hd]
      rw [hempty]
      constructor
      · intro hm
        simp at hm
      · rintro ⟨ents, hents, _⟩
        exact Option.noConfusion hents
    | some ents =>
      rw [hga ents hd]
      constructor
      · intro hm
        rcases List.mem_map.mp hm with ⟨m, hm2, hmid⟩
        rcases List.mem_map.mp hm2 with ⟨ent, hent, hmk⟩
        have hid : ent.name = e := by rw [← hmid, ← hmk]
        rcases List.mem_filter.mp hent with ⟨hent2, hcond⟩
        simp only [Bool.and_eq_true, Bool.not_eq_true'] at hcond
        obtain ⟨hdirflag, hcontains⟩ := hcond
        refine ⟨ents, rfl, ⟨ent, hent2, hid, hdirflag⟩, ?_⟩
        have hmem : e ∈ (if isAdmin then findAll db else findByGroupIds db gs) := by
          rw [← hid]
          simpa using hcontains
        exact (hmemacc e).mp hmem
      · rintro ⟨ents', hents', ⟨ent, hent, hname, hdirflag⟩, hex⟩
        have hee : ents' = ents := (Option.some_inj.mp hents').symm
        subst hee
        apply List.mem_map.mpr
        refine ⟨_, List.mem_map.mpr ⟨ent, ?_, rfl⟩, hname⟩
        apply List.mem_filter.mpr
        refine ⟨hent, ?_⟩
        simp only [Bool.and_eq_true, Bool.not_eq_true']
        refine ⟨hdirflag, ?_⟩
        have hmem : ent.name ∈ (if isAdmin then findAll db else findByGroupIds db gs) := by
          rw [hname]
          exact (hmemacc e).mpr hex
        simpa using hmem
  · intro hd
    unfold getAllDocuments
    rw [hd]

/-- Witness for C8: with one active record whose folder exists, one whose
folder is missing, and an unrecorded folder on disk, the listing contains
exactly the first id. -/
theorem c8_listing_exact_witness :
    ("BMRA" ∈ (getAllDocuments [⟨"BMRA", ["G1"], true⟩, ⟨"GHOST", ["G1"], true⟩]
        ⟨[], [("/home/alimohammad/pdf-results",
          [⟨"BMRA", false⟩, ⟨"STRAY", false⟩])]⟩ ["G1"] false).map
        (fun m => m.id)) ∧
    ("GHOST" ∉ (getAllDocuments [⟨"BMRA", ["G1"], true⟩, ⟨"GHOST", ["G1"], true⟩]
        ⟨[], [("/home/alimohammad/pdf-results",
          [⟨"BMRA", false⟩, ⟨"STRAY", false⟩])]⟩ ["G1"] false).map
        (fun m => m.id)) := by
  obtain ⟨hiff, _⟩ := c8_listing_exact
    [⟨"BMRA", ["G1"], true⟩, ⟨"GHOST", ["G1"], true⟩]
    ⟨[], [("/home/alimohammad/pdf-results",
      [⟨"BMRA", false⟩, ⟨"STRAY", false⟩])]⟩ ["G1"] false (by decide)
  constructor
  · exact (hiff "BMRA").mpr ⟨[⟨"BMRA", false⟩, ⟨"STRAY", false⟩], by decide,
      ⟨⟨"BMRA", false⟩, by decide, by decide, by decide⟩,
      ⟨"BMRA", ["G1"], true⟩, by decide, by decide,
      Or.inr ⟨"G1", by decide, by decide⟩⟩
  · intro hm
    rcases (hiff "GHOST").mp hm with ⟨ents, hents, ⟨ent, hent, hname, _⟩, _⟩
    have : ents = [⟨"BMRA", false⟩, ⟨"STRAY", false⟩] := by
      rw [show dirEntriesOf ⟨[], [("/home/alimohammad/pdf-results",
        [⟨"BMRA", false⟩, ⟨"STRAY", false⟩])]⟩ OUTPUTS_DIR =
        some [⟨"BMRA", false⟩, ⟨"STRAY", false⟩] from by decide] at hents
      exact (Option.some_inj.mp hents).symm
    subst this
    rcases List.mem_cons.mp hent with h | h
    · rw [h] at hname
      exact absurd hname (by decide)
    · rcases List.mem_cons.mp h with h2 | h2
      · rw [h2] at hname
        exact absurd hname (by decide)
      · exact List.not_mem_nil _ h2

end DocFlow

